import Mathlib

/-!
Shallow embedding of the Opus range (entropy) decoder of
`symphonia-codec-opus/src/range/mod.rs`, together with theorems checking
the natural-language specification against it.

Modelling conventions:
* `u32` values are `Nat` with explicit bounds/`% 2^32` where the machine
  width matters.
* Rust's checked (debug-profile) arithmetic is modelled by `Option`-valued
  helpers: `none` stands for an arithmetic panic (overflow, underflow,
  division by zero, shift amount out of range).  This is also the profile
  under which the repository's own test suite runs.
* Fallible decoder operations return `DecRes`: `.ok` for normal return,
  `.eof` for a propagated end-of-input error (`Err` in the source), and
  `.panic` for abnormal non-return (a runtime panic, or the divergence of
  `LookupTable::new` in unchecked builds, which equally never returns).
* The byte source is the sequential reader the repository's tests use:
  `read_byte` yields `data[pos]` and advances, or an end-of-data error.
-/

namespace OpusRange

set_option maxRecDepth 8192

/-- Largest value of a `u32`. -/
def U32_MAX : Nat := 4294967295

/-- `MIN_RANGE` from `normalize` (line 129): `1 << 23`. -/
def MIN_RANGE : Nat := 8388608

/-- `MAX_VALUE` from `normalize` (line 130): `(1 << 31) - 1`. -/
def MAX_VALUE : Nat := 2147483647

/-- Checked `u32` addition: `none` models the debug-build overflow panic. -/
def cadd (a b : Nat) : Option Nat :=
  if a + b ≤ U32_MAX then some (a + b) else none

/-- Checked `u32` subtraction: `none` models the debug-build underflow panic. -/
def csub (a b : Nat) : Option Nat :=
  if b ≤ a then some (a - b) else none

/-- Checked `u32` multiplication: `none` models the debug-build overflow panic. -/
def cmul (a b : Nat) : Option Nat :=
  if a * b ≤ U32_MAX then some (a * b) else none

/-- Checked `u32` division: `none` models the division-by-zero panic. -/
def cdiv (a b : Nat) : Option Nat :=
  if b = 0 then none else some (a / b)

/-- Checked `u32` right shift: a shift amount of 32 or more panics. -/
def cshr32 (a s : Nat) : Option Nat :=
  if s < 32 then some (a >>> s) else none

/-- Checked `u32` left shift: a shift amount of 32 or more panics; the
shifted-out value bits are silently discarded (Rust `<<` truncates). -/
def cshl32 (a s : Nat) : Option Nat :=
  if s < 32 then some ((a <<< s) % 4294967296) else none

/-- The two parallel arrays built by `LookupTable::new` (lines 8-11),
as lists of 256 entries. -/
structure LookupTable where
  normalize_shift : List Nat
  normalize_add : List Nat
deriving DecidableEq

/-- Inner `while v < 128` loop of `LookupTable::new` (lines 19-26) for one
table index, started at `v` with accumulators `shift` and `add`.
`shift` is a `u8` in the source, so its 256th checked increment panics;
the `fuel` argument counts the remaining loop iterations until that panic
(`none` = the loop does not complete normally; in unchecked builds the
same entries make the loop run forever, again never completing). -/
def entryLoop : Nat → Nat → Nat → Nat → Option (Nat × Nat)
  | _, _, _, 0 => none
  | v, shift, add, fuel + 1 =>
    if v < 128 then
      entryLoop (v <<< 1) (shift + 1) (((add <<< 1) % 4294967296) ||| 1) fuel
    else some (shift, add)

/-- The `(normalize_shift[i], normalize_add[i])` pair that the body of
`LookupTable::new` computes for index `i` (lines 19-28): the inner loop
started at `v = i`, `shift = 0`, `add = 0`, with fuel for the 256
iterations the `u8` counter admits. -/
def lookupEntry (i : Nat) : Option (Nat × Nat) := entryLoop i 0 0 256

/-- `LookupTable::new` (lines 14-35): computes the entries for every index
`0 ≤ i < 256` in order.  `none` models that the constructor never returns
normally (its very first index, `i = 0`, already fails). -/
def LookupTable.new : Option LookupTable :=
  match (List.range 256).mapM lookupEntry with
  | none => none
  | some entries =>
    some { normalize_shift := entries.map Prod.fst,
           normalize_add := entries.map Prod.snd }

/-- `static LOOKUP: Lazy<LookupTable>` (line 38): forced on first use;
if construction panics the instance is poisoned and every later access
panics as well, so a single `Option` value models it. -/
def LOOKUP : Option LookupTable := LookupTable.new

/-- Decoder state (lines 48-54) plus the borrowed sequential byte source
(`data` with read position `pos`, as the tests' `TestReader` implements
`ReadBytes`). -/
structure RState where
  data : List Nat
  pos : Nat
  range : Nat
  value : Nat
  bits_read : Nat
  current_byte : Nat
deriving DecidableEq

/-- Outcome of a fallible decoder operation: normal return, propagated
end-of-input error, or abnormal non-return (panic / divergence). -/
inductive DecRes (α : Type) where
  | ok : α → DecRes α
  | eof : DecRes α
  | panic : DecRes α
deriving DecidableEq

/-- Whether a decoder operation returned normally. -/
def DecRes.isOk {α : Type} : DecRes α → Bool
  | .ok _ => true
  | _ => false

/-- `ReadBytes::read_byte` of the sequential test reader (lines 267-275):
the byte at the cursor, or an end-of-data error. -/
def readByte (s : RState) : DecRes (Nat × RState) :=
  match s.data.get? s.pos with
  | some b => .ok (b, { s with pos := s.pos + 1 })
  | none => .eof

/-- The bit-extraction tail of `get_bit` (lines 166-169): extract the
next most-significant-first bit of `current_byte` and advance the checked
`u32` bit counter. -/
def getBitStep (s1 : RState) : DecRes (Nat × RState) :=
  let bit := (s1.current_byte >>> (7 - s1.bits_read % 8)) &&& 1
  match cadd s1.bits_read 1 with
  | none => .panic
  | some br => .ok (bit, { s1 with bits_read := br })

/-- `get_bit` (lines 160-170): on a byte boundary fetch a fresh byte into
`current_byte`, then extract the next bit. -/
def getBit (s : RState) : DecRes (Nat × RState) :=
  if s.bits_read % 8 = 0 then
    match readByte s with
    | .ok (b, s1) => getBitStep { s1 with current_byte := b }
    | .eof => .eof
    | .panic => .panic
  else getBitStep s

/-- The `try_fold` of `get_bits` (lines 154-158): accumulate `n` bits as
`(acc << 1) | bit`, stopping at the first failure. -/
def getBitsAux : RState → Nat → Nat → DecRes (Nat × RState)
  | s, acc, 0 => .ok (acc, s)
  | s, acc, n + 1 =>
    match getBit s with
    | .ok (bit, s1) => getBitsAux s1 (((acc <<< 1) % 4294967296) ||| bit) n
    | .eof => .eof
    | .panic => .panic

/-- `get_bits(n)` (lines 154-158). -/
def getBits (s : RState) (n : Nat) : DecRes (Nat × RState) := getBitsAux s 0 n

/-- Loop body iteration of `normalize` (lines 128-141) with explicit fuel.
Each iteration forces `LOOKUP`; since `LookupTable::new` never completes,
any entered iteration panics, so the fuel is never exhausted in fact (see
`normalizeAux_eq`).  The body is transcribed from the source: look up the
shift for the top byte `range >> 23`, shift `range`, read 8 raw bits, and
fold them into `value` as `((value << shift) + (add - byte)) & MAX_VALUE`
with `add = normalize_add[shift]`. -/
def normalizeAux : Nat → RState → DecRes RState
  | 0, _ => .panic
  | fuel + 1, s =>
    if s.range ≤ MIN_RANGE then
      match LOOKUP with
      | none => .panic
      | some tbl =>
        match tbl.normalize_shift.get? (s.range >>> 23) with
        | none => .panic
        | some shift =>
          match cshl32 s.range shift with
          | none => .panic
          | some r1 =>
            match getBits { s with range := r1 } 8 with
            | .eof => .eof
            | .panic => .panic
            | .ok (byte, s1) =>
              match tbl.normalize_add.get? shift with
              | none => .panic
              | some add =>
                match cshl32 s1.value shift with
                | none => .panic
                | some v1 =>
                  match csub add byte with
                  | none => .panic
                  | some d =>
                    match cadd v1 d with
                    | none => .panic
                    | some v2 =>
                      normalizeAux fuel { s1 with value := v2 &&& MAX_VALUE }
    else .ok s

/-- `normalize` (lines 128-141). -/
def normalize (s : RState) : DecRes RState := normalizeAux 64 s

/-- The initial decoder state of `Decoder::new` (lines 66-72):
`range = 128`, everything else zeroed, bound to the byte source. -/
def initState (data : List Nat) : RState :=
  { data := data, pos := 0, range := 128, value := 0,
    bits_read := 0, current_byte := 0 }

/-- `Decoder::new` (lines 65-77): start from `range = 128`, read the top
7 bits of the first byte, set `value = 127 - bits`, and normalize. -/
def Decoder.new (data : List Nat) : DecRes RState :=
  match getBits (initState data) 7 with
  | .eof => .eof
  | .panic => .panic
  | .ok (b, s1) =>
    match csub 127 b with
    | none => .panic
    | some v => normalize { s1 with value := v }

/-- `decode_symbol_log_p` (lines 104-118).  The two subtractions in the
taken branch cannot underflow: `value ≥ scale` is the branch guard and
`scale = range >> logp ≤ range`. -/
def decodeSymbolLogP (s : RState) (logp : Nat) : DecRes (Bool × RState) :=
  match cshr32 s.range logp with
  | none => .panic
  | some scale =>
    let s1 : RState :=
      if scale ≤ s.value then
        { s with value := s.value - scale, range := s.range - scale }
      else { s with range := scale }
    match normalize s1 with
    | .ok s2 => .ok (decide (scale ≤ s.value), s2)
    | .eof => .eof
    | .panic => .panic

/-- `update` (lines 143-152): `value -= scale * (ft - fh)`, then
`range = scale * (fh - fl)` if `fl > 0` else `range -= scale * (ft - fh)`,
then normalize. -/
def update (s : RState) (scale fl fh ft : Nat) : DecRes RState :=
  match csub ft fh with
  | none => .panic
  | some d =>
    match cmul scale d with
    | none => .panic
    | some m =>
      match csub s.value m with
      | none => .panic
      | some v =>
        if 0 < fl then
          match csub fh fl with
          | none => .panic
          | some e =>
            match cmul scale e with
            | none => .panic
            | some r => normalize { s with value := v, range := r }
        else
          match csub s.range m with
          | none => .panic
          | some r => normalize { s with value := v, range := r }

/-- The `windows(2).enumerate().find(...)` of lines 87-90: walk adjacent
pairs of the table, returning the first `(index, window[0], window[1])`
whose `window[1]` exceeds the threshold. -/
def findWindow : List Nat → Nat → Nat → Option (Nat × Nat × Nat)
  | a :: b :: rest, threshold, i =>
    if threshold < b then some (i, a, b)
    else findWindow (b :: rest) threshold (i + 1)
  | _, _, _ => none

/-- Lines 87-91: the window search with the eagerly evaluated
`unwrap_or((cdf.len() - 1, cdf[cdf.len() - 2], cdf[cdf.len() - 1]))`
default.  For tables shorter than 2 entries the default's index
computation itself panics (usize underflow / out-of-bounds), hence
`none`. -/
def icdfSelect (cdf : List Nat) (threshold : Nat) : Option (Nat × Nat × Nat) :=
  if 2 ≤ cdf.length then
    some ((findWindow cdf threshold 0).getD
      (cdf.length - 1, cdf.getD (cdf.length - 2) 0, cdf.getD (cdf.length - 1) 0))
  else none

/-- `decode_symbol_with_icdf` (lines 82-96): `ft = cdf[0]` (a panic on an
empty table), `scale = range / ft`, `threshold = value / scale` (checked
divisions), the window search of lines 87-91, then `update`. -/
def decodeSymbolWithICDF (s : RState) (cdf : List Nat) : DecRes (Nat × RState) :=
  match cdf.head? with
  | none => .panic
  | some ft =>
    match cdiv s.range ft with
    | none => .panic
    | some scale =>
      match cdiv s.value scale with
      | none => .panic
      | some threshold =>
        match icdfSelect cdf threshold with
        | none => .panic
        | some (k, fl, fh) =>
          match update s scale fl fh ft with
          | .ok s1 => .ok (k, s1)
          | .eof => .eof
          | .panic => .panic

/-- The symbol returned by a successful table-based decode, if any. -/
def resSym : DecRes (Nat × RState) → Option Nat
  | .ok (k, _) => some k
  | _ => none

/-- At index 0 the inner loop of `LookupTable::new` never reaches
`v ≥ 128` (`0 << 1 = 0`), whatever fuel, start shift, and accumulator. -/
theorem entryLoop_zero (fuel : Nat) :
    ∀ shift add, entryLoop 0 shift add fuel = none := by
  induction fuel with
  | zero => intro shift add; rfl
  | succ n ih =>
    intro shift add
    show entryLoop 0 shift add (n + 1) = none
    rw [entryLoop]
    simp [ih]

/-- The lazy lookup table never becomes available: construction fails at
its first index. -/
theorem LOOKUP_none : LOOKUP = none := by decide

/-- With the poisoned table, any entered `normalize` iteration panics, so
the loop reduces to: panic when `range ≤ 2^23`, identity otherwise. -/
theorem normalizeAux_eq (fuel : Nat) (s : RState) :
    normalizeAux (fuel + 1) s =
      if s.range ≤ MIN_RANGE then .panic else .ok s := by
  rw [normalizeAux, LOOKUP_none]

theorem normalize_eq (s : RState) :
    normalize s = if s.range ≤ MIN_RANGE then .panic else .ok s := by
  show normalizeAux (63 + 1) s = _
  exact normalizeAux_eq 63 s

theorem normalize_ok (s s2 : RState) (h : normalize s = .ok s2) :
    s2 = s ∧ MIN_RANGE < s.range := by
  rw [normalize_eq] at h
  by_cases hr : s.range ≤ MIN_RANGE
  · simp [hr] at h
  · simp [hr] at h
    exact ⟨h.symm, Nat.lt_of_not_le hr⟩

theorem getBitStep_range (s : RState) (b : Nat) (s1 : RState)
    (h : getBitStep s = .ok (b, s1)) : s1.range = s.range := by
  unfold getBitStep at h
  split at h
  · exact absurd h (by simp)
  · simp only [DecRes.ok.injEq, Prod.mk.injEq] at h
    rw [← h.2]

/-- `get_bit` never touches the `range` register. -/
theorem getBit_range (s : RState) (b : Nat) (s1 : RState)
    (h : getBit s = .ok (b, s1)) : s1.range = s.range := by
  unfold getBit at h
  split at h
  · cases hr : readByte s <;> rw [hr] at h
    case ok pair =>
      obtain ⟨byte, s2⟩ := pair
      have h2 := getBitStep_range _ _ _ h
      have h3 : s2.range = s.range := by
        unfold readByte at hr
        cases hg : s.data.get? s.pos <;> rw [hg] at hr
        · exact absurd hr (by simp)
        · simp only [DecRes.ok.injEq, Prod.mk.injEq] at hr
          rw [← hr.2]
      rw [h2]
      exact h3
    case eof => exact absurd h (by simp)
    case panic => exact absurd h (by simp)
  · exact getBitStep_range _ _ _ h

/-- `get_bits` never touches the `range` register. -/
theorem getBitsAux_range (n : Nat) :
    ∀ s acc b s1, getBitsAux s acc n = .ok (b, s1) → s1.range = s.range := by
  induction n with
  | zero =>
    intro s acc b s1 h
    simp only [getBitsAux, DecRes.ok.injEq, Prod.mk.injEq] at h
    rw [← h.2]
  | succ m ih =>
    intro s acc b s1 h
    simp only [getBitsAux] at h
    cases hg : getBit s <;> rw [hg] at h
    case ok pair =>
      obtain ⟨bit, s2⟩ := pair
      have h2 := ih _ _ _ _ h
      rw [h2]
      exact getBit_range _ _ _ hg
    case eof => exact absurd h (by simp)
    case panic => exact absurd h (by simp)

theorem csub_some {a b c : Nat} (h : csub a b = some c) : c = a - b ∧ b ≤ a := by
  unfold csub at h
  split at h <;> simp_all

theorem cmul_some {a b c : Nat} (h : cmul a b = some c) :
    c = a * b ∧ a * b ≤ U32_MAX := by
  unfold cmul at h
  split at h <;> simp_all

theorem cdiv_some {a b c : Nat} (h : cdiv a b = some c) : c = a / b ∧ b ≠ 0 := by
  unfold cdiv at h
  split at h <;> simp_all

theorem cshr32_some {a s c : Nat} (h : cshr32 a s = some c) :
    c = a >>> s ∧ s < 32 := by
  unfold cshr32 at h
  split at h <;> simp_all

/-- A state satisfying the documented invariants: `range = 2^24`,
`value = 0`, over an exhausted stream. -/
def exStateA : RState :=
  { data := [], pos := 0, range := 16777216, value := 0,
    bits_read := 0, current_byte := 0 }

/-- A state with `range = 2^32 - 1` and a small `value`. -/
def exStateB : RState :=
  { data := [], pos := 0, range := 4294967295, value := 5,
    bits_read := 0, current_byte := 0 }

/-- A state with `range = value = 2^25`, which drives the threshold of a
small table to its upper boundary. -/
def exStateC : RState :=
  { data := [], pos := 0, range := 33554432, value := 33554432,
    bits_read := 0, current_byte := 0 }

/-- C1: on the reference byte stream `[0x0b, 0xe4, 0xc1, 0x36, 0xec, 0xc5,
0x80]`, `Decoder::new` does not succeed: its initial `normalize` forces the
lazy `LookupTable`, whose construction never completes, so the claimed
sequence of successful decode calls is unreachable (the construction
already panics). -/
theorem c1_known_vector_construction_panics :
    Decoder.new [11, 228, 193, 54, 236, 197, 128] = .panic := by decide

/-- C2: contrary to the claim, construction of the lookup table does fail:
at index `i = 0` the inner loop never terminates normally (for any fuel,
any start accumulators), and therefore `LookupTable::new` as a whole never
produces the arrays. -/
theorem c2_lookup_construction_fails :
    (∀ fuel shift add, entryLoop 0 shift add fuel = none) ∧
      LookupTable.new = none :=
  ⟨fun fuel => entryLoop_zero fuel, LOOKUP_none⟩

/-- C7: a concrete arithmetic underflow on valid inputs.  At the state
`range = 2^24, value = 0` (which satisfies every documented invariant) and
the real SILK table `[256, 26, 256]`, the selected symbol is 0 with
`fl = 256, fh = 26`, and `update`'s `value -= scale * (ft - fh)` subtracts
`65536 * 230` from 0: an unsigned underflow, i.e. a checked-build panic. -/
theorem c7_update_underflows_on_valid_input :
    decodeSymbolWithICDF exStateA [256, 26, 256] = .panic := by decide

/-- C8: on a single-byte stream, construction does not succeed (the claim
says it does and that only the following table-based decode fails with
input exhaustion): `Decoder::new` panics inside the lazy table
construction before any decode call can be made. -/
theorem c8_single_byte_construction_panics :
    Decoder.new [11] = .panic := by decide

/-- C10: `decode_symbol_log_p` with `logp ≥ 32` always panics (the `u32`
shift `range >> logp` overflows), and `logp = 31` can return normally, so
31 is the largest supported value. -/
theorem c10_logp_shift_overflow :
    (∀ (s : RState) (logp : Nat), 32 ≤ logp →
      decodeSymbolLogP s logp = .panic) ∧
      (decodeSymbolLogP exStateB 31).isOk = true := by
  constructor
  · intro s logp h
    simp [decodeSymbolLogP, cshr32, Nat.not_lt.mpr h]
  · decide

/-- Witness for C10 at `logp = 32`. -/
theorem c10_witness : decodeSymbolLogP exStateB 32 = .panic :=
  c10_logp_shift_overflow.1 exStateB 32 (by decide)

/-- C3 counterexample: the per-index construction rule yields no value at
index 0 (the loop never completes), and the mask `normalize` would fetch
for the one other reachable top-byte value 1 — `normalize_add` at index
`shift = 7` — is 31, not `(1 << 7) - 1 = 127`, because the table stores at
index `i` the mask of index `i`'s own shift, while `normalize` reads it at
index `shift`. -/
theorem c3_counterexample :
    lookupEntry 0 = none ∧ lookupEntry 1 = some (7, 127) ∧
      lookupEntry 7 = some (5, 31) ∧ (31 : Nat) ≠ 2 ^ 7 - 1 := by decide

/-- Bool-level check of the amended per-index table rule: the computed
shift is the least `s` with `(i << s) ≥ 128` and the stored mask is
`(1 << shift) - 1`. -/
def entryGood (i : Nat) : Bool :=
  match lookupEntry i with
  | some (s, a) =>
    (a == 2 ^ s - 1) && decide (128 ≤ i <<< s) &&
      ((List.range s).all fun t => decide (i <<< t < 128))
  | none => false

theorem entryGood_spec (i : Nat) (h : entryGood i = true) :
    ∃ s, lookupEntry i = some (s, 2 ^ s - 1) ∧ 128 ≤ i <<< s ∧
      ∀ t, t < s → i <<< t < 128 := by
  unfold entryGood at h
  cases hg : lookupEntry i <;> rw [hg] at h
  · simp at h
  · rename_i val
    obtain ⟨s, a⟩ := val
    simp only [Bool.and_eq_true, beq_iff_eq, decide_eq_true_eq,
      List.all_eq_true, List.mem_range] at h
    obtain ⟨⟨ha, h128⟩, hall⟩ := h
    exact ⟨s, by rw [ha], h128, hall⟩

theorem entryGood_all : ∀ i, i < 256 → 1 ≤ i → entryGood i = true := by decide

/-- C3 (amended): for every index `1 ≤ i < 256` the construction rule does
hold — `normalize_shift[i]` is the least `s` with `(i << s) ≥ 128` and
`normalize_add[i] = (1 << normalize_shift[i]) - 1`; index 0 has no value
(see the counterexample), and the mask `normalize` fetches is indexed by
the shift, not by the top byte. -/
theorem c3_amended_table_rule (i : Nat) (h1 : i < 256) (h2 : 1 ≤ i) :
    ∃ s, lookupEntry i = some (s, 2 ^ s - 1) ∧ 128 ≤ i <<< s ∧
      ∀ t, t < s → i <<< t < 128 :=
  entryGood_spec i (entryGood_all i h1 h2)

/-- Witness for C3 at index 5. -/
theorem c3_witness :
    ∃ s, lookupEntry 5 = some (s, 2 ^ s - 1) ∧ 128 ≤ 5 <<< s ∧
      ∀ t, t < s → 5 <<< t < 128 :=
  c3_amended_table_rule 5 (by decide) (by decide)

/-- Modelled from the spec: the per-call behaviour the specification
describes for `decode_symbol_log_p` — `scale = range >> logp`,
`bit = value ≥ scale`; if the bit is set, `value` and `range` both
decrease by `scale`, otherwise `range` becomes `scale` and `value` is
unchanged; afterwards the decoder normalizes and the boolean is
returned.  No ICDF table is consulted. -/
def specLogP (s : RState) (logp : Nat) : DecRes (Bool × RState) :=
  let scale := s.range >>> logp
  let s1 : RState :=
    if scale ≤ s.value then
      { s with value := s.value - scale, range := s.range - scale }
    else { s with range := scale }
  match normalize s1 with
  | .ok s2 => .ok (decide (scale ≤ s.value), s2)
  | .eof => .eof
  | .panic => .panic

/-- C6: for every decoder state and every supported `logp` (< 32, see
C10), `decode_symbol_log_p` behaves exactly as the specification
sentence describes. -/
theorem c6_log_p_refines_spec (s : RState) (logp : Nat) (h : logp < 32) :
    decodeSymbolLogP s logp = specLogP s logp := by
  simp [decodeSymbolLogP, specLogP, cshr32, h]

/-- Witness for C6 at a concrete state and `logp = 31`. -/
theorem c6_witness : decodeSymbolLogP exStateB 31 = specLogP exStateB 31 :=
  c6_log_p_refines_spec exStateB 31 (by decide)

/-- C9: with a nonempty table, `1 ≤ ft ≤ 2^16` and a normalized
`range > 2^23`, both divisions of `decode_symbol_with_icdf` are safe and
`scale ≥ 2^7`; without those preconditions — empty table, `ft = 0`, or
`ft > range` (making `scale = 0`) — the operation panics instead of
returning an error. -/
theorem c9_division_safety :
    (∀ (s : RState) (ft : Nat), MIN_RANGE < s.range → 1 ≤ ft → ft ≤ 65536 →
      cdiv s.range ft = some (s.range / ft) ∧ 128 ≤ s.range / ft ∧
        cdiv s.value (s.range / ft) = some (s.value / (s.range / ft))) ∧
    (∀ s : RState, decodeSymbolWithICDF s [] = .panic) ∧
    (∀ (s : RState) (cdf : List Nat),
      decodeSymbolWithICDF s (0 :: cdf) = .panic) ∧
    (∀ (s : RState) (ft : Nat) (cdf : List Nat), s.range < ft →
      decodeSymbolWithICDF s (ft :: cdf) = .panic) := by
  refine ⟨?_, ?_, ?_, ?_⟩
  · intro s ft hr h1 h2
    have hft : ft ≠ 0 := by omega
    have hscale : 128 ≤ s.range / ft := by
      rw [Nat.le_div_iff_mul_le (by omega)]
      have : 128 * ft ≤ 128 * 65536 := Nat.mul_le_mul_left 128 h2
      have hr2 : 8388608 < s.range := hr
      omega
    have hs0 : s.range / ft ≠ 0 := by omega
    exact ⟨by simp [cdiv, hft], hscale, by simp [cdiv, hs0]⟩
  · intro s
    rfl
  · intro s cdf
    simp [decodeSymbolWithICDF, cdiv]
  · intro s ft cdf h
    have hft : ft ≠ 0 := by omega
    simp [decodeSymbolWithICDF, cdiv, hft, Nat.div_eq_of_lt h]

/-- Witness for C9: the safe-division part at `range = 2^24, ft = 256`,
and the `ft > range` panic at a concrete state. -/
theorem c9_witness :
    (cdiv exStateA.range 256 = some (exStateA.range / 256) ∧
      128 ≤ exStateA.range / 256 ∧
      cdiv exStateA.value (exStateA.range / 256) =
        some (exStateA.value / (exStateA.range / 256))) ∧
    decodeSymbolWithICDF exStateB [4294967296] = .panic :=
  ⟨c9_division_safety.1 exStateA 256 (by decide) (by decide) (by decide),
   c9_division_safety.2.2.2 exStateB 4294967296 [] (by decide)⟩

/-- Inversion: a successful `update` determines its arithmetic steps and
final state. -/
theorem update_ok_inv (s : RState) (scale fl fh ft : Nat) (s1 : RState)
    (h : update s scale fl fh ft = .ok s1) :
    ∃ d m v r, csub ft fh = some d ∧ cmul scale d = some m ∧
      csub s.value m = some v ∧
      ((0 < fl ∧ ∃ e, csub fh fl = some e ∧ cmul scale e = some r) ∨
        (fl = 0 ∧ csub s.range m = some r)) ∧
      s1 = { s with value := v, range := r } ∧ MIN_RANGE < r := by
  unfold update at h
  split at h
  · exact absurd h (by simp)
  · rename_i d hd
    split at h
    · exact absurd h (by simp)
    · rename_i m hm
      split at h
      · exact absurd h (by simp)
      · rename_i v hv
        split at h
        · rename_i hfl
          split at h
          · exact absurd h (by simp)
          · rename_i e he
            split at h
            · exact absurd h (by simp)
            · rename_i r hr
              obtain ⟨hs1, hrange⟩ := normalize_ok _ _ h
              exact ⟨d, m, v, r, hd, hm, hv,
                Or.inl ⟨hfl, e, he, hr⟩, hs1, hrange⟩
        · rename_i hfl
          split at h
          · exact absurd h (by simp)
          · rename_i r hr
            obtain ⟨hs1, hrange⟩ := normalize_ok _ _ h
            exact ⟨d, m, v, r, hd, hm, hv,
              Or.inr ⟨by omega, hr⟩, hs1, hrange⟩

/-- Inversion: a successful `decode_symbol_with_icdf` determines each of
its stages. -/
theorem decode_icdf_ok_inv (s : RState) (cdf : List Nat) (k : Nat)
    (s1 : RState) (h : decodeSymbolWithICDF s cdf = .ok (k, s1)) :
    ∃ ft scale threshold fl fh,
      cdf.head? = some ft ∧ cdiv s.range ft = some scale ∧
      cdiv s.value scale = some threshold ∧
      icdfSelect cdf threshold = some (k, fl, fh) ∧
      update s scale fl fh ft = .ok s1 := by
  unfold decodeSymbolWithICDF at h
  split at h
  · exact absurd h (by simp)
  · rename_i ft hft
    split at h
    · exact absurd h (by simp)
    · rename_i scale hscale
      split at h
      · exact absurd h (by simp)
      · rename_i threshold hthreshold
        split at h
        · exact absurd h (by simp)
        · rename_i k2 fl fh hsel
          split at h
          · rename_i s2 hu
            simp only [DecRes.ok.injEq, Prod.mk.injEq] at h
            obtain ⟨hk2, hs2⟩ := h
            exact ⟨ft, scale, threshold, fl, fh, hft, hscale, hthreshold,
              by rw [← hk2]; exact hsel, by rw [← hs2]; exact hu⟩
          · exact absurd h (by simp)
          · exact absurd h (by simp)

/-- When the window search fails, every interior boundary is at or below
the threshold. -/
theorem findWindow_none_le :
    ∀ (l : List Nat) (t i : Nat), findWindow l t i = none →
      ∀ j, j + 1 < l.length → l.getD (j + 1) 0 ≤ t := by
  intro l
  induction l with
  | nil =>
    intro t i h j hj
    simp at hj
  | cons a rest ih =>
    intro t i h j hj
    cases rest with
    | nil => simp at hj
    | cons b rest2 =>
      rw [findWindow] at h
      split at h
      · exact absurd h (by simp)
      · rename_i hnb
        cases j with
        | zero => simpa using Nat.le_of_not_lt hnb
        | succ j2 =>
          have hj2 : j2 + 1 < (b :: rest2).length := by
            simp only [List.length_cons] at hj ⊢
            omega
          simpa using ih t (i + 1) h j2 hj2

/-- When the window search succeeds it returns the first window whose
upper entry exceeds the threshold, together with that window's bounds. -/
theorem findWindow_some_spec :
    ∀ (l : List Nat) (t i k fl fh : Nat),
      findWindow l t i = some (k, fl, fh) →
      ∃ j, k = i + j ∧ j + 1 < l.length ∧ fl = l.getD j 0 ∧
        fh = l.getD (j + 1) 0 ∧ t < fh ∧
        ∀ m, m < j → l.getD (m + 1) 0 ≤ t := by
  intro l
  induction l with
  | nil =>
    intro t i k fl fh h
    simp [findWindow] at h
  | cons a rest ih =>
    intro t i k fl fh h
    cases rest with
    | nil => simp [findWindow] at h
    | cons b rest2 =>
      rw [findWindow] at h
      split at h
      · rename_i htb
        simp only [Option.some.injEq, Prod.mk.injEq] at h
        obtain ⟨hk, hfl, hfh⟩ := h
        refine ⟨0, by omega, by simp, by simp [← hfl], by simp [← hfh],
          by rw [← hfh]; exact htb, ?_⟩
        intro m hm
        exact absurd hm (Nat.not_lt_zero m)
      · rename_i hnb
        obtain ⟨j2, hk, hlen, hfl, hfh, htf, hall⟩ := ih t (i + 1) k fl fh h
        refine ⟨j2 + 1, by omega, ?_, by simpa using hfl, by simpa using hfh,
          htf, ?_⟩
        · simp only [List.length_cons] at hlen ⊢
          omega
        · intro m hm
          cases m with
          | zero => simpa using Nat.le_of_not_lt hnb
          | succ m2 => simpa using hall m2 (by omega)

/-- C4 counterexample: at the state `range = value = 2^25` and the
well-formed table `[2, 1, 2]` the threshold is at the upper boundary, the
fallback fires, and the call returns symbol 2 = `len - 1`, not
`len - 2 = 1` as claimed; and for the literally all-equal well-formed
table `[2, 2, 2]` the fallback collapses `range` to 0 and the call panics
instead of returning `len - 2`. -/
theorem c4_counterexample :
    resSym (decodeSymbolWithICDF exStateC [2, 1, 2]) = some 2 ∧
      decodeSymbolWithICDF exStateC [2, 2, 2] = .panic ∧
      ([2, 1, 2] : List Nat).length - 2 = 1 := by decide

/-- C4 (amended): for every threshold and table of length at least 2, the
selection of lines 87-91 returns the smallest `k` with
`cdf[k+1] > threshold` (with `fl = cdf[k]`, `fh = cdf[k+1]`), and when no
window boundary exceeds the threshold it falls back to `k = len - 1` (not
`len - 2`), with `fl = cdf[len-2]`, `fh = cdf[len-1]`; a successful
`decode_symbol_with_icdf` call returns exactly the `k` so selected for its
computed threshold. -/
theorem c4_selection :
    (∀ (cdf : List Nat) (t : Nat), 2 ≤ cdf.length →
      ∃ k fl fh, icdfSelect cdf t = some (k, fl, fh) ∧
        ((k + 1 < cdf.length ∧ fl = cdf.getD k 0 ∧ fh = cdf.getD (k + 1) 0 ∧
          t < fh ∧ ∀ j, j < k → cdf.getD (j + 1) 0 ≤ t) ∨
         (k = cdf.length - 1 ∧ fl = cdf.getD (cdf.length - 2) 0 ∧
          fh = cdf.getD (cdf.length - 1) 0 ∧
          ∀ j, j + 1 < cdf.length → cdf.getD (j + 1) 0 ≤ t))) ∧
    (∀ (s : RState) (cdf : List Nat) (k : Nat) (s1 : RState),
      decodeSymbolWithICDF s cdf = .ok (k, s1) →
      ∃ fl fh, icdfSelect cdf (s.value / (s.range / cdf.headD 0)) =
        some (k, fl, fh)) := by
  constructor
  · intro cdf t hlen
    unfold icdfSelect
    rw [if_pos hlen]
    cases hf : findWindow cdf t 0 with
    | none =>
      refine ⟨cdf.length - 1, cdf.getD (cdf.length - 2) 0,
        cdf.getD (cdf.length - 1) 0, by simp, Or.inr ?_⟩
      exact ⟨rfl, rfl, rfl, findWindow_none_le cdf t 0 hf⟩
    | some triple =>
      obtain ⟨k, fl, fh⟩ := triple
      obtain ⟨j, hk, hlen2, hfl, hfh, htf, hall⟩ :=
        findWindow_some_spec cdf t 0 k fl fh hf
      have hjk : j = k := by omega
      subst hjk
      exact ⟨j, fl, fh, by simp, Or.inl ⟨by omega, hfl, hfh, htf, hall⟩⟩
  · intro s cdf k s1 h
    obtain ⟨ft, scale, threshold, fl, fh, hft, hscale, hthreshold, hsel, hu⟩ :=
      decode_icdf_ok_inv s cdf k s1 h
    have hhd : cdf.headD 0 = ft := by
      cases cdf with
      | nil => simp at hft
      | cons a l =>
        simp only [List.head?_cons, Option.some.injEq] at hft
        simp [hft]
    obtain ⟨hsc, hft0⟩ := cdiv_some hscale
    obtain ⟨hth, hsc0⟩ := cdiv_some hthreshold
    refine ⟨fl, fh, ?_⟩
    rw [hhd, ← hsc, ← hth]
    exact hsel

/-- Witness for C4 at the table `[2, 1, 2]` and threshold 2. -/
theorem c4_witness :
    ∃ k fl fh, icdfSelect [2, 1, 2] 2 = some (k, fl, fh) ∧
      ((k + 1 < 3 ∧ fl = ([2, 1, 2] : List Nat).getD k 0 ∧
        fh = ([2, 1, 2] : List Nat).getD (k + 1) 0 ∧ 2 < fh ∧
        ∀ j, j < k → ([2, 1, 2] : List Nat).getD (j + 1) 0 ≤ 2) ∨
       (k = 2 ∧ fl = ([2, 1, 2] : List Nat).getD 1 0 ∧
        fh = ([2, 1, 2] : List Nat).getD 2 0 ∧
        ∀ j, j + 1 < 3 → ([2, 1, 2] : List Nat).getD (j + 1) 0 ≤ 2)) :=
  c4_selection.1 [2, 1, 2] 2 (by decide)

theorem new_never_ok (data : List Nat) : (Decoder.new data).isOk = false := by
  unfold Decoder.new
  cases hg : getBits (initState data) 7 with
  | eof => rfl
  | panic => rfl
  | ok pair =>
    obtain ⟨b, s1⟩ := pair
    have hr : s1.range = 128 := getBitsAux_range 7 _ _ _ _ hg
    show (match csub 127 b with
      | none => DecRes.panic
      | some v => normalize { s1 with value := v }).isOk = false
    cases hc : csub 127 b with
    | none => rfl
    | some v =>
      show (normalize { s1 with value := v }).isOk = false
      rw [normalize_eq]
      have hle : ({ s1 with value := v } : RState).range ≤ MIN_RANGE := by
        show s1.range ≤ MIN_RANGE
        rw [hr]
        decide
      rw [if_pos hle]
      rfl

theorem icdf_ok_invariant (s : RState) (cdf : List Nat) (k : Nat)
    (s1 : RState) (hrange : s.range ≤ U32_MAX) (hvalue : s.value ≤ MAX_VALUE)
    (h : decodeSymbolWithICDF s cdf = .ok (k, s1)) :
    MIN_RANGE < s1.range ∧ s1.range ≤ U32_MAX ∧ s1.value ≤ MAX_VALUE := by
  obtain ⟨ft, scale, threshold, fl, fh, hft, hscale, hthreshold, hsel, hu⟩ :=
    decode_icdf_ok_inv s cdf k s1 h
  obtain ⟨d, m, v, r, hd, hm, hv, hbr, hs1, hminr⟩ :=
    update_ok_inv s scale fl fh ft s1 hu
  obtain ⟨hveq, hvle⟩ := csub_some hv
  have hrle : r ≤ U32_MAX := by
    rcases hbr with ⟨hfl, e, he, hr⟩ | ⟨hfl, hr⟩
    · exact (cmul_some hr).1 ▸ (cmul_some hr).2
    · obtain ⟨hreq, hrle⟩ := csub_some hr
      omega
  subst hs1
  refine ⟨hminr, hrle, ?_⟩
  show v ≤ MAX_VALUE
  omega

theorem logp_ok_invariant (s : RState) (logp : Nat) (b : Bool)
    (s1 : RState) (hrange : s.range ≤ U32_MAX) (hvalue : s.value ≤ MAX_VALUE)
    (h : decodeSymbolLogP s logp = .ok (b, s1)) :
    MIN_RANGE < s1.range ∧ s1.range ≤ U32_MAX ∧ s1.value ≤ MAX_VALUE := by
  unfold decodeSymbolLogP at h
  split at h
  · exact absurd h (by simp)
  · rename_i scale hshr
    obtain ⟨hsc, hlt⟩ := cshr32_some hshr
    have hscle : scale ≤ s.range := by
      rw [hsc, Nat.shiftRight_eq_div_pow]
      exact Nat.div_le_self _ _
    split at h
    · rename_i hsv
      dsimp only at h
      rw [normalize_eq] at h
      split at h
      · rename_i s2 heq
        simp only [DecRes.ok.injEq, Prod.mk.injEq] at h
        obtain ⟨hb, hs1⟩ := h
        subst hs1
        split at heq
        · exact absurd heq (by simp)
        · rename_i hgt
          simp only [DecRes.ok.injEq] at heq
          subst heq
          have hgt2 : ¬(s.range - scale ≤ MIN_RANGE) := hgt
          refine ⟨?_, ?_, ?_⟩
          · show MIN_RANGE < s.range - scale
            omega
          · show s.range - scale ≤ U32_MAX
            omega
          · show s.value - scale ≤ MAX_VALUE
            omega
      · exact absurd h (by simp)
      · exact absurd h (by simp)
    · rename_i hsv
      dsimp only at h
      rw [normalize_eq] at h
      split at h
      · rename_i s2 heq
        simp only [DecRes.ok.injEq, Prod.mk.injEq] at h
        obtain ⟨hb, hs1⟩ := h
        subst hs1
        split at heq
        · exact absurd heq (by simp)
        · rename_i hgt
          simp only [DecRes.ok.injEq] at heq
          subst heq
          have hgt2 : ¬(scale ≤ MIN_RANGE) := hgt
          refine ⟨?_, ?_, ?_⟩
          · show MIN_RANGE < scale
            omega
          · show scale ≤ U32_MAX
            omega
          · exact hvalue
      · exact absurd h (by simp)
      · exact absurd h (by simp)

/-- C5: the claimed invariant regime is unreachable — `Decoder::new`
never returns successfully (its initial `normalize` forces the poisoned
lookup table) — while the per-call halves of the claim do hold: from any
state within `u32`/31-bit bounds, a successful call to either decode
primitive leaves `range` strictly between `2^23` and `2^32` and `value`
within the 31-bit mask. -/
theorem c5_range_invariant :
    (∀ data : List Nat, (Decoder.new data).isOk = false) ∧
    (∀ (s : RState) (cdf : List Nat) (k : Nat) (s1 : RState),
      s.range ≤ U32_MAX → s.value ≤ MAX_VALUE →
      decodeSymbolWithICDF s cdf = .ok (k, s1) →
      MIN_RANGE < s1.range ∧ s1.range ≤ U32_MAX ∧ s1.value ≤ MAX_VALUE) ∧
    (∀ (s : RState) (logp : Nat) (b : Bool) (s1 : RState),
      s.range ≤ U32_MAX → s.value ≤ MAX_VALUE →
      decodeSymbolLogP s logp = .ok (b, s1) →
      MIN_RANGE < s1.range ∧ s1.range ≤ U32_MAX ∧ s1.value ≤ MAX_VALUE) :=
  ⟨new_never_ok, icdf_ok_invariant, logp_ok_invariant⟩

/-- Witness for C5: a successful table decode and a successful binary
decode, both preserving the invariants. -/
theorem c5_witness :
    (MIN_RANGE < 16777216 ∧ 16777216 ≤ U32_MAX ∧ 33554432 ≤ MAX_VALUE) ∧
      (MIN_RANGE < 4294967294 ∧ 4294967294 ≤ U32_MAX ∧ 4 ≤ MAX_VALUE) :=
  ⟨c5_range_invariant.2.1 exStateC [2, 1, 2] 2
      { data := [], pos := 0, range := 16777216, value := 33554432,
        bits_read := 0, current_byte := 0 }
      (by decide) (by decide) (by decide),
   c5_range_invariant.2.2 exStateB 31 true
      { data := [], pos := 0, range := 4294967294, value := 4,
        bits_read := 0, current_byte := 0 }
      (by decide) (by decide) (by decide)⟩

end OpusRange
